import Mathlib

/-!
Verification of `wifi-scan-ingestion/firehose-ingestion/scripts/message_processor.py`.

The script's own logic (`WifiScanMessageProcessor` and `main`) is embedded
directly from the source.  The Python standard-library routines it calls
(`json.dumps`, `str.encode`/`bytes.decode` for UTF-8, `base64.b64encode` /
`base64.b64decode`, `gzip.compress` / `gzip.decompress`) are not part of the
repository; they are modelled here as executable functions over `List Nat`
byte sequences, faithful to their documented observable behaviour:

* UTF-8: standard strict encoder/decoder (rejects overlong forms, surrogates
  and out-of-range code points, as CPython's strict codec does).
* base64: standard alphabet with `=` padding; the decoder follows CPython's
  non-strict `binascii.a2b_base64` (characters outside the alphabet are
  discarded; a pad sequence completing a quad stops parsing; a leftover
  partial quad raises `binascii.Error`).
* gzip: the RFC 1952 container (magic `1f 8b`, method 8, flags 0, mtime,
  XFL/OS bytes, CRC-32 and ISIZE trailer) around a DEFLATE body.  The DEFLATE
  body is modelled with stored (uncompressed) blocks; byte-for-byte equality
  with zlib's level-6 output is not modelled (and is not claimed by the spec,
  which requires only a standard container and round-trip correctness), but
  header validation, the CRC-32/ISIZE checks and the multi-member loop of
  `gzip.decompress` are.
* `datetime.utcnow()` is modelled as an explicit `now : String` parameter;
  floating-point arithmetic in the compression ratio is modelled with exact
  rationals.

Bytes are `Nat`s (kept `< 256` by construction); fallible library calls
return `Except`/`Option` values mirroring the Python exceptions named in the
spec (`DecodeError`, `DecompressionError`, `EncodingError`).
-/

namespace MessageProcessor

/-! ## JSON values and messages

`message: Union[str, Dict[Any, Any]]` — a message is a raw string or a
JSON-compatible mapping.  JSON numbers are modelled as integers (every value
the claims exercise is an integer; floats are outside the model). -/

inductive Json where
  | null : Json
  | bool : Bool → Json
  | num : Int → Json
  | str : String → Json
  | arr : List Json → Json
  | obj : List (String × Json) → Json

/-- `Union[str, Dict[Any, Any]]`: the input type of `compress_message`,
`process_message` and `create_firehose_payload`. -/
inductive Message where
  | str : String → Message
  | dict : List (String × Json) → Message

/-! ## `json.dumps(·, separators=(',', ':'))`

Compact serialization: no whitespace, `,` between items, `:` between key and
value, insertion order preserved.  Python's default `ensure_ascii=True`
escapes `"`, `\`, control characters and all non-ASCII characters with
`\uXXXX` sequences (lowercase hex, surrogate pairs above U+FFFF). -/

def hexDigit (n : Nat) : Char :=
  if n < 10 then Char.ofNat (48 + n) else Char.ofNat (87 + n)

def hex4 (n : Nat) : String :=
  ⟨[hexDigit (n / 4096 % 16), hexDigit (n / 256 % 16), hexDigit (n / 16 % 16), hexDigit (n % 16)]⟩

def escapeChar (c : Char) : String :=
  if c = '"' then "\\\""
  else if c = '\\' then "\\\\"
  else if c = '\n' then "\\n"
  else if c = '\r' then "\\r"
  else if c = '\t' then "\\t"
  else if c.toNat = 8 then "\\b"
  else if c.toNat = 12 then "\\f"
  else if c.toNat < 0x20 then "\\u" ++ hex4 c.toNat
  else if c.toNat < 0x7F then ⟨[c]⟩
  else if c.toNat < 0x10000 then "\\u" ++ hex4 c.toNat
  else
    "\\u" ++ hex4 (0xD800 + (c.toNat - 0x10000) / 1024) ++
    "\\u" ++ hex4 (0xDC00 + (c.toNat - 0x10000) % 1024)

def escapeString (s : String) : String :=
  "\"" ++ String.join (s.data.map escapeChar) ++ "\""

mutual

def dumpsJson : Json → String
  | .null => "null"
  | .bool true => "true"
  | .bool false => "false"
  | .num n => toString n
  | .str s => escapeString s
  | .arr xs => "[" ++ dumpsList xs ++ "]"
  | .obj kvs => "\x7b" ++ dumpsObj kvs ++ "\x7d"

def dumpsList : List Json → String
  | [] => ""
  | [x] => dumpsJson x
  | x :: xs => dumpsJson x ++ "," ++ dumpsList xs

def dumpsObj : List (String × Json) → String
  | [] => ""
  | [(k, v)] => escapeString k ++ ":" ++ dumpsJson v
  | (k, v) :: kvs => escapeString k ++ ":" ++ dumpsJson v ++ "," ++ dumpsObj kvs

end

/-- The canonical serialization performed at the top of `compress_message` and
`process_message`: `json.dumps(message, separators=(',', ':'))` for a dict,
`str(message)` (the identity on `str`) otherwise. -/
def serialize : Message → String
  | .str s => s
  | .dict kvs => dumpsJson (.obj kvs)

/-! ## UTF-8 (`str.encode('utf-8')` / `bytes.decode('utf-8')`) -/

def utf8EncodeChar (n : Nat) : List Nat :=
  if n < 0x80 then [n]
  else if n < 0x800 then [0xC0 + n / 64, 0x80 + n % 64]
  else if n < 0x10000 then [0xE0 + n / 4096, 0x80 + n / 64 % 64, 0x80 + n % 64]
  else [0xF0 + n / 262144, 0x80 + n / 4096 % 64, 0x80 + n / 64 % 64, 0x80 + n % 64]

def utf8EncodeList : List Char → List Nat
  | [] => []
  | c :: cs => utf8EncodeChar c.toNat ++ utf8EncodeList cs

/-- `s.encode('utf-8')`. -/
def utf8Encode (s : String) : List Nat :=
  utf8EncodeList s.data

/-- Is `b` a UTF-8 continuation byte? -/
def isCont (b : Nat) : Prop := 0x80 ≤ b ∧ b < 0xC0

instance (b : Nat) : Decidable (isCont b) := by unfold isCont; infer_instance

/-- Code point of a two-byte UTF-8 sequence. -/
def cp2 (b0 b1 : Nat) : Nat := (b0 - 0xC0) * 64 + (b1 - 0x80)

/-- Code point of a three-byte UTF-8 sequence. -/
def cp3 (b0 b1 b2 : Nat) : Nat := (b0 - 0xE0) * 4096 + (b1 - 0x80) * 64 + (b2 - 0x80)

/-- Code point of a four-byte UTF-8 sequence. -/
def cp4 (b0 b1 b2 b3 : Nat) : Nat :=
  (b0 - 0xF0) * 262144 + (b1 - 0x80) * 4096 + (b2 - 0x80) * 64 + (b3 - 0x80)

mutual

/-- Strict UTF-8 decoding (CPython's default `errors='strict'`): rejects
invalid lead bytes, truncated sequences, overlong forms, surrogates and
code points above U+10FFFF. -/
def utf8DecodeList : List Nat → Option (List Char)
  | [] => some []
  | b0 :: rest =>
    if b0 < 0x80 then (utf8DecodeList rest).map (Char.ofNat b0 :: ·)
    else if b0 < 0xC2 then none
    else if b0 < 0xE0 then utf8Dec2 b0 rest
    else if b0 < 0xF0 then utf8Dec3 b0 rest
    else if b0 < 0xF5 then utf8Dec4 b0 rest
    else none

def utf8Dec2 : Nat → List Nat → Option (List Char)
  | b0, b1 :: rest =>
    if isCont b1 then (utf8DecodeList rest).map (Char.ofNat (cp2 b0 b1) :: ·)
    else none
  | _, [] => none

def utf8Dec3 : Nat → List Nat → Option (List Char)
  | b0, b1 :: b2 :: rest =>
    if isCont b1 ∧ isCont b2 then
      if 0x800 ≤ cp3 b0 b1 b2 ∧ ¬ (0xD800 ≤ cp3 b0 b1 b2 ∧ cp3 b0 b1 b2 < 0xE000) then
        (utf8DecodeList rest).map (Char.ofNat (cp3 b0 b1 b2) :: ·)
      else none
    else none
  | _, _ => none

def utf8Dec4 : Nat → List Nat → Option (List Char)
  | b0, b1 :: b2 :: b3 :: rest =>
    if isCont b1 ∧ isCont b2 ∧ isCont b3 then
      if 0x10000 ≤ cp4 b0 b1 b2 b3 ∧ cp4 b0 b1 b2 b3 < 0x110000 then
        (utf8DecodeList rest).map (Char.ofNat (cp4 b0 b1 b2 b3) :: ·)
      else none
    else none
  | _, _ => none

end

/-- `bs.decode('utf-8')`. -/
def utf8Decode (bs : List Nat) : Option String :=
  (utf8DecodeList bs).map (⟨·⟩)

/-! ## Errors

The spec's error kinds for the transcoding primitives: `DecodeError`
(`binascii.Error` from `base64.b64decode`), `DecompressionError`
(`gzip.BadGzipFile`/`EOFError` from `gzip.decompress`), `EncodingError`
(`UnicodeDecodeError` from `bytes.decode('utf-8')`). -/

inductive PyError where
  | decodeError : PyError
  | decompressionError : PyError
  | encodingError : PyError
deriving DecidableEq

/-! ## base64 (`base64.b64encode` / `base64.b64decode`) -/

/-- The standard base64 alphabet. -/
def b64Char (n : Nat) : Char :=
  if n < 26 then Char.ofNat (65 + n)
  else if n < 52 then Char.ofNat (97 + (n - 26))
  else if n < 62 then Char.ofNat (48 + (n - 52))
  else if n = 62 then '+'
  else '/'

/-- `base64.b64encode`: 3 input bytes become 4 alphabet characters; a final
1- or 2-byte group is padded with `=`. -/
def b64EncodeList : List Nat → List Char
  | b1 :: b2 :: b3 :: rest =>
      b64Char (b1 / 4) :: b64Char (b1 % 4 * 16 + b2 / 16) ::
      b64Char (b2 % 16 * 4 + b3 / 64) :: b64Char (b3 % 64) :: b64EncodeList rest
  | [b1, b2] =>
      [b64Char (b1 / 4), b64Char (b1 % 4 * 16 + b2 / 16), b64Char (b2 % 16 * 4), '=']
  | [b1] => [b64Char (b1 / 4), b64Char (b1 % 4 * 16), '=', '=']
  | [] => []

/-- Value of a base64 alphabet character (CPython's `table_a2b_base64`);
`none` for every other character. -/
def b64Value (c : Char) : Option Nat :=
  if 'A' ≤ c ∧ c ≤ 'Z' then some (c.toNat - 65)
  else if 'a' ≤ c ∧ c ≤ 'z' then some (c.toNat - 97 + 26)
  else if '0' ≤ c ∧ c ≤ '9' then some (c.toNat - 48 + 52)
  else if c = '+' then some 62
  else if c = '/' then some 63
  else none

/-- CPython's `binascii.a2b_base64` with `strict_mode=False` (what
`base64.b64decode(·, validate=False)` — the script's call — uses):
characters outside the alphabet are silently discarded; `=` is ignored
unless the current quad already holds 2 or 3 data characters, in which case
enough pads complete the quad and stop parsing; at end of input a partial
quad raises `binascii.Error`.  State: `quadPos` = data characters in the
current quad, `leftchar` = pending bits, `pads` = pads seen in this quad. -/
def a2bBase64 : List Char → Nat → Nat → Nat → List Nat → Except PyError (List Nat)
  | [], quadPos, _, _, acc =>
      if quadPos = 0 then .ok acc else .error .decodeError
  | c :: cs, quadPos, leftchar, pads, acc =>
      if c = '=' then
        if 2 ≤ quadPos ∧ 4 ≤ quadPos + (pads + 1) then .ok acc
        else a2bBase64 cs quadPos leftchar (if 2 ≤ quadPos then pads + 1 else pads) acc
      else
        match b64Value c with
        | none => a2bBase64 cs quadPos leftchar pads acc
        | some v =>
          match quadPos with
          | 0 => a2bBase64 cs 1 v 0 acc
          | 1 => a2bBase64 cs 2 (v % 16) 0 (acc ++ [leftchar * 4 + v / 16])
          | 2 => a2bBase64 cs 3 (v % 4) 0 (acc ++ [leftchar * 16 + v / 4])
          | _ => a2bBase64 cs 0 0 0 (acc ++ [leftchar * 64 + v])

/--
```
def encode_base64(self, data: bytes) -> str:
    return base64.b64encode(data).decode('utf-8')
```
-/
def encode_base64 (data : List Nat) : String :=
  ⟨b64EncodeList data⟩

/--
```
def decode_base64(self, encoded_data: str) -> bytes:
    return base64.b64decode(encoded_data.encode('utf-8'))
```
(UTF-8 bytes of non-ASCII characters are all `≥ 0x80`, hence outside the
alphabet table and discarded, so iterating over characters is equivalent.)
-/
def decode_base64 (encoded_data : String) : Except PyError (List Nat) :=
  a2bBase64 encoded_data.data 0 0 0 []

/-! ## gzip (`gzip.compress` / `gzip.decompress`)

RFC 1952 container; the DEFLATE body is modelled with stored blocks (see the
file header).  CRC-32 is the standard reflected-polynomial checksum. -/

/-- One bit of the reflected CRC-32 polynomial division. -/
def crcStep (r : Nat) : Nat :=
  if r % 2 = 1 then (r / 2) ^^^ 0xEDB88320 else r / 2

def crcStep8 (r : Nat) : Nat :=
  crcStep (crcStep (crcStep (crcStep (crcStep (crcStep (crcStep (crcStep r)))))))

def crc32Aux : List Nat → Nat → Nat
  | [], r => r
  | b :: bs, r => crc32Aux bs (crcStep8 (r ^^^ b))

/-- `zlib.crc32`. -/
def crc32 (bs : List Nat) : Nat :=
  crc32Aux bs 0xFFFFFFFF ^^^ 0xFFFFFFFF

/-- Little-endian 4-byte encoding (`struct <I`). -/
def toLE4 (n : Nat) : List Nat :=
  [n % 256, n / 256 % 256, n / 65536 % 256, n / 16777216 % 256]

/-- Little-endian 4-byte reading. -/
def fromLE4 (b0 b1 b2 b3 : Nat) : Nat :=
  b0 + b1 * 256 + b2 * 65536 + b3 * 16777216

/-- Block emitter for `deflateStored`; `fuel` bounds the number of blocks
(each block holds up to 0xFFFF bytes and the initial `length + 1` never runs
out). -/
def deflateStoredGo : Nat → List Nat → List Nat
  | 0, _ => []
  | fuel + 1, data =>
    if data.length ≤ 65535 then
      1 :: data.length % 256 :: data.length / 256 ::
        (65535 - data.length) % 256 :: (65535 - data.length) / 256 :: data
    else
      0 :: 255 :: 255 :: 0 :: 0 ::
        (data.take 65535 ++ deflateStoredGo fuel (data.drop 65535))

/-- A DEFLATE stream of stored (BTYPE 00) blocks: each block is a header byte
(BFINAL in bit 0, BTYPE in bits 1–2, zero elsewhere since the block is
byte-aligned), `LEN` and `NLEN = 0xFFFF - LEN` little-endian, then `LEN` raw
bytes; at most 0xFFFF bytes per block. -/
def deflateStored (data : List Nat) : List Nat :=
  deflateStoredGo (data.length + 1) data

/-- Block reader for `inflateStored`; `fuel` bounds the number of blocks. -/
def inflateStoredGo : Nat → List Nat → Except PyError (List Nat × List Nat)
  | 0, _ => .error .decompressionError
  | fuel + 1, l =>
    match l with
    | b :: l0 :: l1 :: n0 :: n1 :: rest =>
      if b / 2 % 4 = 0 then
        if l0 + l1 * 256 + (n0 + n1 * 256) = 65535 then
          if rest.length < l0 + l1 * 256 then .error .decompressionError
          else if b % 2 = 1 then .ok (rest.take (l0 + l1 * 256), rest.drop (l0 + l1 * 256))
          else
            match inflateStoredGo fuel (rest.drop (l0 + l1 * 256)) with
            | .ok (payload, rem) => .ok (rest.take (l0 + l1 * 256) ++ payload, rem)
            | .error e => .error e
        else .error .decompressionError
      else .error .decompressionError
    | _ => .error .decompressionError

/-- Inflate a stream of stored blocks, returning the payload and the bytes
after the final block.  Huffman-compressed blocks (BTYPE 01/10) are outside
the model (no claim feeds one; this model's compressor emits only stored
blocks) and report an error, as do truncated or corrupt block structures. -/
def inflateStored (l : List Nat) : Except PyError (List Nat × List Nat) :=
  inflateStoredGo (l.length + 1) l

/-- `gzip.compress(data, compresslevel=6)`: 10-byte header (magic `1f 8b`,
method 8 = deflate, flags 0, 4-byte modification time — the wall clock,
passed here as `mtime` — XFL 0 for levels 2–8, OS 255 = unknown), the
DEFLATE body, then CRC-32 and `ISIZE = len(data) mod 2^32`, little-endian. -/
def gzipCompress (data : List Nat) (mtime : Nat) : List Nat :=
  0x1F :: 0x8B :: 8 :: 0 :: mtime % 256 :: mtime / 256 % 256 :: mtime / 65536 % 256 ::
    mtime / 16777216 % 256 :: 0 :: 255 ::
    (deflateStored data ++ toLE4 (crc32 data) ++ toLE4 (data.length % 4294967296))

/-- Parse one gzip member: validate the fixed header (CPython's
`_read_gzip_header`: wrong magic or method raises `BadGzipFile`; a nonzero
flag byte selects optional fields, which no compressor output here carries
and which the model treats as an error), inflate the body, then check the
CRC-32 and ISIZE trailer words.  Returns the payload and the bytes after the
trailer. -/
def gzipParseMember (l : List Nat) : Except PyError (List Nat × List Nat) :=
  match l with
  | m0 :: m1 :: cm :: flg :: _t0 :: _t1 :: _t2 :: _t3 :: _xfl :: _os :: body =>
    if m0 = 0x1F ∧ m1 = 0x8B then
      if cm = 8 then
        if flg = 0 then
          match inflateStored body with
          | .error e => .error e
          | .ok (payload, rest) =>
            match rest with
            | c0 :: c1 :: c2 :: c3 :: s0 :: s1 :: s2 :: s3 :: rest2 =>
              if fromLE4 c0 c1 c2 c3 = crc32 payload then
                if fromLE4 s0 s1 s2 s3 = payload.length % 4294967296 then
                  .ok (payload, rest2)
                else .error .decompressionError
              else .error .decompressionError
            | _ => .error .decompressionError
        else .error .decompressionError
      else .error .decompressionError
    else .error .decompressionError
  | _ => .error .decompressionError

/-- `gzip.decompress` strips NUL padding between members. -/
def stripZeros : List Nat → List Nat
  | 0 :: rest => stripZeros rest
  | l => l

/-- The member loop of `gzip.decompress`: concatenated gzip members are all
decompressed; empty remaining input ends the loop.  `fuel` bounds the
iteration count (each member consumes at least one byte, so the initial
`length + 1` never runs out). -/
def gzipDecompressLoop : Nat → List Nat → List Nat → Except PyError (List Nat)
  | 0, _, _ => .error .decompressionError
  | _ + 1, [], acc => .ok acc
  | fuel + 1, b :: l, acc =>
    match gzipParseMember (b :: l) with
    | .error e => .error e
    | .ok (payload, rest) => gzipDecompressLoop fuel (stripZeros rest) (acc ++ payload)

/-- `gzip.decompress(data)`. -/
def gzipDecompress (data : List Nat) : Except PyError (List Nat) :=
  gzipDecompressLoop (data.length + 1) data []

/-! ## `WifiScanMessageProcessor` -/

/-- `self.compression_level = 6` — the fixed gzip level (1–9 scale).  It is
a zlib encoder parameter; the container model is the same for all levels. -/
def compression_level : Nat := 6

/--
```
def compress_message(self, message):
    if isinstance(message, dict):
        message_str = json.dumps(message, separators=(',', ':'))
    else:
        message_str = str(message)
    return gzip.compress(message_str.encode('utf-8'), compresslevel=self.compression_level)
```
`mtime` is the wall-clock modification time `gzip.compress` stamps into the
header. -/
def compress_message (message : Message) (mtime : Nat) : List Nat :=
  gzipCompress (utf8Encode (serialize message)) mtime

/--
```
def decompress_message(self, compressed_data: bytes) -> str:
    return gzip.decompress(compressed_data).decode('utf-8')
```
-/
def decompress_message (compressed_data : List Nat) : Except PyError String :=
  match gzipDecompress compressed_data with
  | .error e => .error e
  | .ok payload =>
    match utf8Decode payload with
    | some s => .ok s
    | none => .error .encodingError

/-- Python's `round` to an integer: round-half-to-even. -/
def roundHalfEven (q : ℚ) : ℤ :=
  if q - ⌊q⌋ < 1 / 2 then ⌊q⌋
  else if 1 / 2 < q - ⌊q⌋ then ⌊q⌋ + 1
  else if ⌊q⌋ % 2 = 0 then ⌊q⌋ else ⌊q⌋ + 1

/-- `round(x, 2)`, in exact rational arithmetic (binary-float representation
effects of the Python original are outside the model). -/
def round2 (q : ℚ) : ℚ :=
  (roundHalfEven (q * 100) : ℚ) / 100

/-- The dictionary returned by `process_message`. -/
structure ProcessingResult where
  original_size : Nat
  compressed_size : Nat
  encoded_size : Nat
  compression_ratio : ℚ
  compressed_data : List Nat
  encoded_data : String
  processing_timestamp : String

/--
```
def process_message(self, message):
    if isinstance(message, dict):
        original_json = json.dumps(message, separators=(',', ':'))
    else:
        original_json = str(message)
    original_size = len(original_json.encode('utf-8'))
    compressed_data = self.compress_message(message)
    compressed_size = len(compressed_data)
    encoded_data = self.encode_base64(compressed_data)
    encoded_size = len(encoded_data.encode('utf-8'))
    compression_ratio = (1 - compressed_size / original_size) * 100 if original_size > 0 else 0
    return {'original_size': ..., 'compressed_size': ..., 'encoded_size': ...,
            'compression_ratio': round(compression_ratio, 2),
            'compressed_data': ..., 'encoded_data': ...,
            'processing_timestamp': datetime.utcnow().isoformat() + 'Z'}
```
`now` models `datetime.utcnow().isoformat()`. -/
def process_message (message : Message) (mtime : Nat) (now : String) : ProcessingResult :=
  let original_json := serialize message
  let original_size := (utf8Encode original_json).length
  let compressed_data := compress_message message mtime
  let compressed_size := compressed_data.length
  let encoded_data := encode_base64 compressed_data
  let encoded_size := (utf8Encode encoded_data).length
  let compression_ratio : ℚ :=
    if original_size > 0 then (1 - (compressed_size : ℚ) / (original_size : ℚ)) * 100 else 0
  { original_size := original_size
    compressed_size := compressed_size
    encoded_size := encoded_size
    compression_ratio := round2 compression_ratio
    compressed_data := compressed_data
    encoded_data := encoded_data
    processing_timestamp := now ++ "Z" }

set_option linter.unusedVariables false in
/--
```
def create_firehose_payload(self, message, record_id=None):
    processed = self.process_message(message)
    return {'DeliveryStreamName': 'MVS-stream', 'Record': {'Data': processed['encoded_data']}}
```
-/
def create_firehose_payload (message : Message) (record_id : Option String)
    (mtime : Nat) (now : String) : Json :=
  let processed := process_message message mtime now
  Json.obj [("DeliveryStreamName", .str "MVS-stream"),
            ("Record", Json.obj [("Data", .str processed.encoded_data)])]

/-! ## The CLI (`main`, lines 188–273)

`argparse` fills an `Args` record; the `try` block dispatches on the flags.
Python truthiness: an optional string argument guards a branch only when it
is present *and* non-empty. -/

structure Args where
  file : Option String
  json : Option String
  output : Option String
  compress : Bool
  decompress : Bool
  base64 : Option String
  firehose : Bool
  verbose : Bool

def truthy : Option String → Bool
  | none => false
  | some s => !(s == "")

/-- Which pipeline `main` runs: the reverse pipeline
(`decode_base64` + `decompress_message` + print), the forward pipeline fed
from a file or from an inline JSON string (with the `--firehose` and
`--output` selections), the `--compress`-without-input usage error
(exit 1), or help + exit 1. -/
inductive CliAction where
  | runDecompress : String → CliAction
  | compressFromFile : String → Bool → Option String → CliAction
  | compressFromJson : String → Bool → Option String → CliAction
  | usageErrorExit : CliAction
  | helpExit : CliAction
deriving DecidableEq

/--
```
if args.decompress and args.base64:
    decoded_bytes = processor.decode_base64(args.base64)
    decompressed_message = processor.decompress_message(decoded_bytes)
    ...
elif args.compress:
    if args.file: message = processor.load_json_file(args.file)
    elif args.json: message = json.loads(args.json)
    else: print("Error: Specify --file or --json for compression", ...); sys.exit(1)
    if args.firehose: ... create_firehose_payload ... else: ... process_message ...
else:
    parser.print_help(); sys.exit(1)
```
-/
def mainDispatch (args : Args) : CliAction :=
  if args.decompress && truthy args.base64 then
    .runDecompress (args.base64.getD "")
  else if args.compress then
    if truthy args.file then .compressFromFile (args.file.getD "") args.firehose args.output
    else if truthy args.json then .compressFromJson (args.json.getD "") args.firehose args.output
    else .usageErrorExit
  else .helpExit

instance {ε α : Type} [DecidableEq ε] [DecidableEq α] : DecidableEq (Except ε α)
  | .error a, .error b =>
    if h : a = b then .isTrue (by rw [h]) else .isFalse (fun hh => by cases hh; exact h rfl)
  | .error _, .ok _ => .isFalse (fun hh => by cases hh)
  | .ok _, .error _ => .isFalse (fun hh => by cases hh)
  | .ok a, .ok b =>
    if h : a = b then .isTrue (by rw [h]) else .isFalse (fun hh => by cases hh; exact h rfl)

/-! ## Additional helpers for the claims -/

/-- Top-level key list of a JSON object (empty for non-objects). -/
def jsonTopKeys : Json → List String
  | .obj kvs => kvs.map Prod.fst
  | _ => []

/-! ## Theorems -/

theorem char_toNat_valid (c : Char) :
    c.toNat < 0xD800 ∨ (0xE000 ≤ c.toNat ∧ c.toNat < 0x110000) := by
  rcases c.valid with h | ⟨h1, h2⟩
  · left; exact h
  · right; exact ⟨h1, h2⟩

theorem utf8DecodeList_encodeChar (c : Char) (rest : List Nat) :
    utf8DecodeList (utf8EncodeChar c.toNat ++ rest) =
      (utf8DecodeList rest).map (c :: ·) := by
  have hv := char_toNat_valid c
  have hofNat := Char.ofNat_toNat c
  rcases Nat.lt_or_ge c.toNat 0x80 with h1 | h1
  · have henc : utf8EncodeChar c.toNat = [c.toNat] := by
      unfold utf8EncodeChar; rw [if_pos h1]
    rw [henc, List.cons_append, List.nil_append, utf8DecodeList, if_pos h1, hofNat]
  · rcases Nat.lt_or_ge c.toNat 0x800 with h2 | h2
    · have ha : ¬ (c.toNat < 0x80) := by omega
      have henc : utf8EncodeChar c.toNat = [0xC0 + c.toNat / 64, 0x80 + c.toNat % 64] := by
        unfold utf8EncodeChar; rw [if_neg ha, if_pos h2]
      have hb0a : ¬ (0xC0 + c.toNat / 64 < 0x80) := by omega
      have hb0b : ¬ (0xC0 + c.toNat / 64 < 0xC2) := by omega
      have hb0c : 0xC0 + c.toNat / 64 < 0xE0 := by omega
      have hcont : isCont (0x80 + c.toNat % 64) := ⟨by omega, by omega⟩
      have hval : cp2 (0xC0 + c.toNat / 64) (0x80 + c.toNat % 64) = c.toNat := by
        unfold cp2; omega
      rw [henc, List.cons_append, List.cons_append, List.nil_append, utf8DecodeList,
        if_neg hb0a, if_neg hb0b, if_pos hb0c, utf8Dec2, if_pos hcont, hval, hofNat]
    · rcases Nat.lt_or_ge c.toNat 0x10000 with h3 | h3
      · have ha : ¬ (c.toNat < 0x80) := by omega
        have hb : ¬ (c.toNat < 0x800) := by omega
        have henc : utf8EncodeChar c.toNat =
            [0xE0 + c.toNat / 4096, 0x80 + c.toNat / 64 % 64, 0x80 + c.toNat % 64] := by
          unfold utf8EncodeChar; rw [if_neg ha, if_neg hb, if_pos h3]
        have hb0a : ¬ (0xE0 + c.toNat / 4096 < 0x80) := by omega
        have hb0b : ¬ (0xE0 + c.toNat / 4096 < 0xC2) := by omega
        have hb0c : ¬ (0xE0 + c.toNat / 4096 < 0xE0) := by omega
        have hb0d : 0xE0 + c.toNat / 4096 < 0xF0 := by omega
        have hcont : isCont (0x80 + c.toNat / 64 % 64) ∧ isCont (0x80 + c.toNat % 64) :=
          ⟨⟨by omega, by omega⟩, ⟨by omega, by omega⟩⟩
        have hval : cp3 (0xE0 + c.toNat / 4096) (0x80 + c.toNat / 64 % 64)
            (0x80 + c.toNat % 64) = c.toNat := by
          unfold cp3; omega
        have hrange : 0x800 ≤ c.toNat ∧ ¬ (0xD800 ≤ c.toNat ∧ c.toNat < 0xE000) := by omega
        rw [henc, List.cons_append, List.cons_append, List.cons_append, List.nil_append,
          utf8DecodeList, if_neg hb0a, if_neg hb0b, if_neg hb0c, if_pos hb0d, utf8Dec3,
          if_pos hcont, hval, if_pos hrange, hofNat]
      · have ha : ¬ (c.toNat < 0x80) := by omega
        have hb : ¬ (c.toNat < 0x800) := by omega
        have hc : ¬ (c.toNat < 0x10000) := by omega
        have h4 : c.toNat < 0x110000 := by omega
        have henc : utf8EncodeChar c.toNat =
            [0xF0 + c.toNat / 262144, 0x80 + c.toNat / 4096 % 64,
             0x80 + c.toNat / 64 % 64, 0x80 + c.toNat % 64] := by
          unfold utf8EncodeChar; rw [if_neg ha, if_neg hb, if_neg hc]
        have hb0a : ¬ (0xF0 + c.toNat / 262144 < 0x80) := by omega
        have hb0b : ¬ (0xF0 + c.toNat / 262144 < 0xC2) := by omega
        have hb0c : ¬ (0xF0 + c.toNat / 262144 < 0xE0) := by omega
        have hb0d : ¬ (0xF0 + c.toNat / 262144 < 0xF0) := by omega
        have hb0e : 0xF0 + c.toNat / 262144 < 0xF5 := by omega
        have hcont : isCont (0x80 + c.toNat / 4096 % 64) ∧ isCont (0x80 + c.toNat / 64 % 64) ∧
            isCont (0x80 + c.toNat % 64) :=
          ⟨⟨by omega, by omega⟩, ⟨by omega, by omega⟩, ⟨by omega, by omega⟩⟩
        have hval : cp4 (0xF0 + c.toNat / 262144) (0x80 + c.toNat / 4096 % 64)
            (0x80 + c.toNat / 64 % 64) (0x80 + c.toNat % 64) = c.toNat := by
          unfold cp4; omega
        have hrange : 0x10000 ≤ c.toNat ∧ c.toNat < 0x110000 := by omega
        rw [henc, List.cons_append, List.cons_append, List.cons_append, List.cons_append,
          List.nil_append, utf8DecodeList, if_neg hb0a, if_neg hb0b, if_neg hb0c,
          if_neg hb0d, if_pos hb0e, utf8Dec4, if_pos hcont, hval, if_pos hrange, hofNat]

theorem utf8DecodeList_encodeList (cs : List Char) :
    utf8DecodeList (utf8EncodeList cs) = some cs := by
  induction cs with
  | nil => rfl
  | cons c cs ih =>
    rw [utf8EncodeList, utf8DecodeList_encodeChar, ih]
    rfl

/-- UTF-8 round-trip: decoding the encoding of any string gives it back. -/
theorem utf8Decode_encode (s : String) : utf8Decode (utf8Encode s) = some s := by
  rw [utf8Encode, utf8Decode, utf8DecodeList_encodeList]
  rfl

theorem utf8EncodeChar_lt_256 (n : Nat) (hn : n < 0x110000) :
    ∀ b ∈ utf8EncodeChar n, b < 256 := by
  unfold utf8EncodeChar
  split
  · intro b hb; simp at hb; omega
  · split
    · intro b hb; simp at hb; omega
    · split
      · intro b hb; simp at hb; omega
      · intro b hb; simp at hb; omega

theorem utf8Encode_lt_256 (s : String) : ∀ b ∈ utf8Encode s, b < 256 := by
  rw [utf8Encode]
  induction s.data with
  | nil => intro b hb; simp [utf8EncodeList] at hb
  | cons c cs ih =>
    intro b hb
    rw [utf8EncodeList] at hb
    rcases List.mem_append.1 hb with h | h
    · have hv : c.toNat < 0x110000 := by
        rcases char_toNat_valid c with h' | h' <;> omega
      exact utf8EncodeChar_lt_256 c.toNat hv b h
    · exact ih b h

theorem b64Value_b64Char : ∀ v : Nat, v < 64 → b64Value (b64Char v) = some v := by
  decide

theorem b64Char_ne_pad : ∀ v : Nat, v < 64 → b64Char v ≠ '=' := by
  decide

theorem b64Char_lt_128 : ∀ v : Nat, v < 64 → (b64Char v).toNat < 128 := by
  decide

theorem a2b_data0 (c : Char) (cs : List Char) (lc pads : Nat) (acc : List Nat) (v : Nat)
    (hne : c ≠ '=') (hv : b64Value c = some v) :
    a2bBase64 (c :: cs) 0 lc pads acc = a2bBase64 cs 1 v 0 acc := by
  rw [a2bBase64, if_neg hne, hv]

theorem a2b_data1 (c : Char) (cs : List Char) (lc pads : Nat) (acc : List Nat) (v : Nat)
    (hne : c ≠ '=') (hv : b64Value c = some v) :
    a2bBase64 (c :: cs) 1 lc pads acc =
      a2bBase64 cs 2 (v % 16) 0 (acc ++ [lc * 4 + v / 16]) := by
  rw [a2bBase64, if_neg hne, hv]

theorem a2b_data2 (c : Char) (cs : List Char) (lc pads : Nat) (acc : List Nat) (v : Nat)
    (hne : c ≠ '=') (hv : b64Value c = some v) :
    a2bBase64 (c :: cs) 2 lc pads acc =
      a2bBase64 cs 3 (v % 4) 0 (acc ++ [lc * 16 + v / 4]) := by
  rw [a2bBase64, if_neg hne, hv]

theorem a2b_data3 (c : Char) (cs : List Char) (lc pads : Nat) (acc : List Nat) (v : Nat)
    (hne : c ≠ '=') (hv : b64Value c = some v) :
    a2bBase64 (c :: cs) 3 lc pads acc =
      a2bBase64 cs 0 0 0 (acc ++ [lc * 64 + v]) := by
  rw [a2bBase64, if_neg hne, hv]

theorem a2b_pad_stop (cs : List Char) (quadPos lc pads : Nat) (acc : List Nat)
    (h : 2 ≤ quadPos ∧ 4 ≤ quadPos + (pads + 1)) :
    a2bBase64 ('=' :: cs) quadPos lc pads acc = .ok acc := by
  rw [a2bBase64, if_pos rfl, if_pos h]

theorem a2b_pad_cont (cs : List Char) (quadPos lc pads : Nat) (acc : List Nat)
    (h : ¬ (2 ≤ quadPos ∧ 4 ≤ quadPos + (pads + 1))) :
    a2bBase64 ('=' :: cs) quadPos lc pads acc =
      a2bBase64 cs quadPos lc (if 2 ≤ quadPos then pads + 1 else pads) acc := by
  rw [a2bBase64, if_pos rfl, if_neg h]

theorem a2bBase64_chunk (b1 b2 b3 : Nat) (h1 : b1 < 256) (h2 : b2 < 256) (h3 : b3 < 256)
    (rest : List Char) (acc : List Nat) :
    a2bBase64 (b64Char (b1 / 4) :: b64Char (b1 % 4 * 16 + b2 / 16) ::
        b64Char (b2 % 16 * 4 + b3 / 64) :: b64Char (b3 % 64) :: rest) 0 0 0 acc =
      a2bBase64 rest 0 0 0 (acc ++ [b1, b2, b3]) := by
  have hv1 : b1 / 4 < 64 := by omega
  have hv2 : b1 % 4 * 16 + b2 / 16 < 64 := by omega
  have hv3 : b2 % 16 * 4 + b3 / 64 < 64 := by omega
  have hv4 : b3 % 64 < 64 := by omega
  rw [a2b_data0 _ _ _ _ _ _ (b64Char_ne_pad _ hv1) (b64Value_b64Char _ hv1)]
  rw [a2b_data1 _ _ _ _ _ _ (b64Char_ne_pad _ hv2) (b64Value_b64Char _ hv2)]
  rw [a2b_data2 _ _ _ _ _ _ (b64Char_ne_pad _ hv3) (b64Value_b64Char _ hv3)]
  rw [a2b_data3 _ _ _ _ _ _ (b64Char_ne_pad _ hv4) (b64Value_b64Char _ hv4)]
  have e1 : b1 / 4 * 4 + (b1 % 4 * 16 + b2 / 16) / 16 = b1 := by omega
  have e2 : (b1 % 4 * 16 + b2 / 16) % 16 * 16 + (b2 % 16 * 4 + b3 / 64) / 4 = b2 := by omega
  have e3 : (b2 % 16 * 4 + b3 / 64) % 4 * 64 + b3 % 64 = b3 := by omega
  rw [e1, e2, e3]
  simp

theorem a2bBase64_encode (bs : List Nat) (h : ∀ b ∈ bs, b < 256) (acc : List Nat) :
    a2bBase64 (b64EncodeList bs) 0 0 0 acc = .ok (acc ++ bs) := by
  induction bs using b64EncodeList.induct generalizing acc with
  | case1 b1 b2 b3 rest ih =>
    have h1 : b1 < 256 := h b1 (by simp)
    have h2 : b2 < 256 := h b2 (by simp)
    have h3 : b3 < 256 := h b3 (by simp)
    rw [b64EncodeList, a2bBase64_chunk b1 b2 b3 h1 h2 h3]
    rw [ih (fun b hb => h b (by simp [hb]))]
    simp
  | case2 b1 b2 =>
    have h1 : b1 < 256 := h b1 (by simp)
    have h2 : b2 < 256 := h b2 (by simp)
    have hv1 : b1 / 4 < 64 := by omega
    have hv2 : b1 % 4 * 16 + b2 / 16 < 64 := by omega
    have hv3 : b2 % 16 * 4 < 64 := by omega
    rw [b64EncodeList]
    rw [a2b_data0 _ _ _ _ _ _ (b64Char_ne_pad _ hv1) (b64Value_b64Char _ hv1)]
    rw [a2b_data1 _ _ _ _ _ _ (b64Char_ne_pad _ hv2) (b64Value_b64Char _ hv2)]
    rw [a2b_data2 _ _ _ _ _ _ (b64Char_ne_pad _ hv3) (b64Value_b64Char _ hv3)]
    rw [a2b_pad_stop _ _ _ _ _ ⟨by omega, by omega⟩]
    have e1 : b1 / 4 * 4 + (b1 % 4 * 16 + b2 / 16) / 16 = b1 := by omega
    have e2 : (b1 % 4 * 16 + b2 / 16) % 16 * 16 + b2 % 16 * 4 / 4 = b2 := by omega
    rw [e1, e2, List.append_assoc]
    rfl
  | case3 b1 =>
    have h1 : b1 < 256 := h b1 (by simp)
    have hv1 : b1 / 4 < 64 := by omega
    have hv2 : b1 % 4 * 16 < 64 := by omega
    rw [b64EncodeList]
    rw [a2b_data0 _ _ _ _ _ _ (b64Char_ne_pad _ hv1) (b64Value_b64Char _ hv1)]
    rw [a2b_data1 _ _ _ _ _ _ (b64Char_ne_pad _ hv2) (b64Value_b64Char _ hv2)]
    rw [a2b_pad_cont _ _ _ _ _ (by omega)]
    rw [if_pos (by norm_num)]
    rw [a2b_pad_stop _ _ _ _ _ ⟨by omega, by omega⟩]
    have e1 : b1 / 4 * 4 + b1 % 4 * 16 / 16 = b1 := by omega
    rw [e1]
  | case4 =>
    rw [b64EncodeList, a2bBase64, if_pos rfl]
    simp

/-- base64 round-trip: decoding the encoding of any byte sequence gives it
back. -/
theorem decode_encode_base64 (bs : List Nat) (h : ∀ b ∈ bs, b < 256) :
    decode_base64 (encode_base64 bs) = .ok bs := by
  rw [decode_base64, encode_base64]
  exact a2bBase64_encode bs h []

/-- Length of base64-encoded output: `4 * ⌈n / 3⌉`. -/
theorem b64EncodeList_length (bs : List Nat) :
    (b64EncodeList bs).length = 4 * ((bs.length + 2) / 3) := by
  induction bs using b64EncodeList.induct with
  | case1 b1 b2 b3 rest ih =>
    rw [b64EncodeList]
    simp only [List.length_cons, ih]
    omega
  | case2 b1 b2 => rw [b64EncodeList]; simp
  | case3 b1 => rw [b64EncodeList]; simp
  | case4 => rw [b64EncodeList]; rfl

/-- Every character of a base64 encoding of genuine bytes is ASCII. -/
theorem b64EncodeList_ascii (bs : List Nat) (h : ∀ b ∈ bs, b < 256) :
    ∀ c ∈ b64EncodeList bs, c.toNat < 128 := by
  induction bs using b64EncodeList.induct with
  | case1 b1 b2 b3 rest ih =>
    have h1 : b1 < 256 := h b1 (by simp)
    have h2 : b2 < 256 := h b2 (by simp)
    have h3 : b3 < 256 := h b3 (by simp)
    intro c hc
    rw [b64EncodeList] at hc
    simp only [List.mem_cons] at hc
    rcases hc with rfl | rfl | rfl | rfl | hc
    · exact b64Char_lt_128 _ (by omega)
    · exact b64Char_lt_128 _ (by omega)
    · exact b64Char_lt_128 _ (by omega)
    · exact b64Char_lt_128 _ (by omega)
    · exact ih (fun b hb => h b (by simp [hb])) c hc
  | case2 b1 b2 =>
    have h1 : b1 < 256 := h b1 (by simp)
    have h2 : b2 < 256 := h b2 (by simp)
    intro c hc
    rw [b64EncodeList] at hc
    simp only [List.mem_cons, List.not_mem_nil, or_false] at hc
    rcases hc with rfl | rfl | rfl | rfl
    · exact b64Char_lt_128 _ (by omega)
    · exact b64Char_lt_128 _ (by omega)
    · exact b64Char_lt_128 _ (by omega)
    · decide
  | case3 b1 =>
    have h1 : b1 < 256 := h b1 (by simp)
    intro c hc
    rw [b64EncodeList] at hc
    simp only [List.mem_cons, List.not_mem_nil, or_false] at hc
    rcases hc with rfl | rfl | rfl | rfl
    · exact b64Char_lt_128 _ (by omega)
    · exact b64Char_lt_128 _ (by omega)
    · decide
    · decide
  | case4 =>
    intro c hc
    rw [b64EncodeList] at hc
    simp at hc

theorem crcStep_lt (r : Nat) (h : r < 2 ^ 32) : crcStep r < 2 ^ 32 := by
  unfold crcStep
  split
  · exact Nat.xor_lt_two_pow (by omega) (by norm_num)
  · omega

theorem crcStep8_lt (r : Nat) (h : r < 2 ^ 32) : crcStep8 r < 2 ^ 32 := by
  unfold crcStep8
  exact crcStep_lt _ (crcStep_lt _ (crcStep_lt _ (crcStep_lt _ (crcStep_lt _ (crcStep_lt _
    (crcStep_lt _ (crcStep_lt _ h)))))))

theorem crc32Aux_lt (bs : List Nat) (hb : ∀ b ∈ bs, b < 256) :
    ∀ r, r < 2 ^ 32 → crc32Aux bs r < 2 ^ 32 := by
  induction bs with
  | nil => intro r hr; exact hr
  | cons b bs ih =>
    intro r hr
    rw [crc32Aux]
    refine ih (fun x hx => hb x (by simp [hx])) _ (crcStep8_lt _ ?_)
    have hb' : b < 256 := hb b (by simp)
    exact Nat.xor_lt_two_pow hr (by omega)

theorem crc32_lt (bs : List Nat) (hb : ∀ b ∈ bs, b < 256) : crc32 bs < 2 ^ 32 := by
  rw [crc32]
  exact Nat.xor_lt_two_pow (crc32Aux_lt bs hb _ (by norm_num)) (by norm_num)

theorem fromLE4_toLE4 (n : Nat) (h : n < 2 ^ 32) :
    fromLE4 (n % 256) (n / 256 % 256) (n / 65536 % 256) (n / 16777216 % 256) = n := by
  unfold fromLE4
  omega

theorem inflateStoredGo_deflateStoredGo (fe : Nat) :
    ∀ (data trailer : List Nat) (fi : Nat), data.length < fe → data.length < fi →
      inflateStoredGo fi (deflateStoredGo fe data ++ trailer) = .ok (data, trailer) := by
  induction fe with
  | zero => intro data trailer fi hfe hfi; omega
  | succ fe ih =>
    intro data trailer fi hfe hfi
    obtain ⟨m, rfl⟩ : ∃ m, fi = m + 1 := ⟨fi - 1, by omega⟩
    by_cases hle : data.length ≤ 65535
    · rw [deflateStoredGo, if_pos hle]
      have hlen : data.length % 256 + data.length / 256 * 256 = data.length := by omega
      have hnlen : data.length % 256 + data.length / 256 * 256 +
          ((65535 - data.length) % 256 + (65535 - data.length) / 256 * 256) = 65535 := by omega
      rw [List.cons_append, List.cons_append, List.cons_append, List.cons_append,
        List.cons_append, inflateStoredGo]
      rw [if_pos (by norm_num), if_pos hnlen]
      have hrest : ¬ ((data ++ trailer).length <
          data.length % 256 + data.length / 256 * 256) := by
        simp only [List.length_append]; omega
      rw [if_neg hrest, if_pos (by norm_num), hlen,
        List.take_left' rfl, List.drop_left' rfl]
    · rw [deflateStoredGo, if_neg hle]
      rw [List.cons_append, List.cons_append, List.cons_append, List.cons_append,
        List.cons_append, inflateStoredGo]
      rw [if_pos (by norm_num), if_pos (by norm_num)]
      have h255 : (255 : Nat) + 255 * 256 = 65535 := by norm_num
      have htk : (data.take 65535).length = 65535 := by
        rw [List.length_take]; omega
      have hrest : ¬ ((data.take 65535 ++
          (deflateStoredGo fe (data.drop 65535) ++ trailer)).length < 255 + 255 * 256) := by
        simp only [List.length_append]; omega
      have hdl : (data.drop 65535).length < fe := by
        rw [List.length_drop]; omega
      have hdm : (data.drop 65535).length < m := by
        rw [List.length_drop]; omega
      rw [List.append_assoc, if_neg hrest, if_neg (by norm_num), h255,
        List.drop_left' htk, ih _ _ _ hdl hdm, List.take_left' htk]
      simp

/-- The stored stream is at least as long as its payload. -/
theorem deflateStoredGo_length_ge (fe : Nat) :
    ∀ data : List Nat, data.length < fe → data.length ≤ (deflateStoredGo fe data).length := by
  induction fe with
  | zero => intro data h; omega
  | succ fe ih =>
    intro data h
    by_cases hle : data.length ≤ 65535
    · rw [deflateStoredGo, if_pos hle]
      simp only [List.length_cons]
      omega
    · rw [deflateStoredGo, if_neg hle]
      have hdl : (data.drop 65535).length < fe := by
        rw [List.length_drop]; omega
      have := ih _ hdl
      simp only [List.length_cons, List.length_append, List.length_take, List.length_drop]
      rw [List.length_drop] at this
      omega

theorem inflateStored_deflateStored (data trailer : List Nat) :
    inflateStored (deflateStored data ++ trailer) = .ok (data, trailer) := by
  rw [inflateStored, deflateStored]
  apply inflateStoredGo_deflateStoredGo
  · omega
  · have := deflateStoredGo_length_ge (data.length + 1) data (by omega)
    simp only [List.length_append]
    omega

theorem gzipParseMember_compress (data : List Nat) (mtime : Nat)
    (h : ∀ b ∈ data, b < 256) :
    gzipParseMember (gzipCompress data mtime) = .ok (data, []) := by
  rw [gzipCompress, gzipParseMember]
  rw [if_pos ⟨rfl, rfl⟩, if_pos rfl, if_pos rfl]
  have hassoc : deflateStored data ++ toLE4 (crc32 data) ++ toLE4 (data.length % 4294967296) =
      deflateStored data ++ (toLE4 (crc32 data) ++ toLE4 (data.length % 4294967296)) := by
    rw [List.append_assoc]
  rw [hassoc, inflateStored_deflateStored data]
  rw [toLE4, toLE4]
  have hcrc : fromLE4 (crc32 data % 256) (crc32 data / 256 % 256) (crc32 data / 65536 % 256)
      (crc32 data / 16777216 % 256) = crc32 data :=
    fromLE4_toLE4 _ (crc32_lt data h)
  have hsize : fromLE4 (data.length % 4294967296 % 256) (data.length % 4294967296 / 256 % 256)
      (data.length % 4294967296 / 65536 % 256) (data.length % 4294967296 / 16777216 % 256) =
      data.length % 4294967296 :=
    fromLE4_toLE4 _ (by omega)
  simp only [List.cons_append, List.nil_append]
  rw [hcrc, hsize, if_pos rfl, if_pos rfl]

/-- gzip round-trip: decompressing the compression of any byte sequence
gives it back, for every modification time stamped into the header. -/
theorem gzipDecompress_compress (data : List Nat) (mtime : Nat)
    (h : ∀ b ∈ data, b < 256) :
    gzipDecompress (gzipCompress data mtime) = .ok data := by
  obtain ⟨k, hk⟩ : ∃ k, (gzipCompress data mtime).length = k + 1 := by
    rw [gzipCompress]; exact ⟨_, rfl⟩
  rw [gzipDecompress, hk, gzipCompress, gzipDecompressLoop]
  rw [show (0x1F :: 0x8B :: 8 :: 0 :: mtime % 256 :: mtime / 256 % 256 :: mtime / 65536 % 256 ::
    mtime / 16777216 % 256 :: 0 :: 255 ::
    (deflateStored data ++ toLE4 (crc32 data) ++ toLE4 (data.length % 4294967296))) =
    gzipCompress data mtime from rfl]
  rw [gzipParseMember_compress data mtime h]
  show gzipDecompressLoop (k + 1) [] ([] ++ data) = .ok data
  rw [gzipDecompressLoop]
  simp

/-! ## Bridge lemmas -/

theorem deflateStoredGo_lt_256 (fe : Nat) :
    ∀ data : List Nat, (∀ b ∈ data, b < 256) →
      ∀ b ∈ deflateStoredGo fe data, b < 256 := by
  induction fe with
  | zero => intro data _ b hb; simp [deflateStoredGo] at hb
  | succ fe ih =>
    intro data hd b hb
    by_cases hle : data.length ≤ 65535
    · rw [deflateStoredGo, if_pos hle] at hb
      simp only [List.mem_cons] at hb
      rcases hb with rfl | rfl | rfl | rfl | rfl | hb
      · omega
      · omega
      · omega
      · omega
      · omega
      · exact hd b hb
    · rw [deflateStoredGo, if_neg hle] at hb
      simp only [List.mem_cons, List.mem_append] at hb
      rcases hb with rfl | rfl | rfl | rfl | rfl | hb | hb
      · omega
      · omega
      · omega
      · omega
      · omega
      · exact hd b (List.mem_of_mem_take hb)
      · exact ih _ (fun x hx => hd x (List.mem_of_mem_drop hx)) b hb

theorem gzipCompress_lt_256 (data : List Nat) (mtime : Nat) (hd : ∀ b ∈ data, b < 256) :
    ∀ b ∈ gzipCompress data mtime, b < 256 := by
  intro b hb
  rw [gzipCompress] at hb
  simp only [List.mem_cons, List.mem_append, toLE4, List.not_mem_nil, or_false] at hb
  rcases hb with rfl | rfl | rfl | rfl | rfl | rfl | rfl | rfl | rfl | rfl | hb | hb
  · omega
  · omega
  · omega
  · omega
  · omega
  · omega
  · omega
  · omega
  · omega
  · omega
  · rcases hb with hb | ⟨rfl | rfl | rfl | rfl⟩
    · exact deflateStoredGo_lt_256 _ data hd b hb
    all_goals omega
  · rcases hb with rfl | rfl | rfl | rfl
    all_goals omega

theorem compress_message_lt_256 (M : Message) (mtime : Nat) :
    ∀ b ∈ compress_message M mtime, b < 256 := by
  rw [compress_message]
  exact gzipCompress_lt_256 _ mtime (utf8Encode_lt_256 _)

/-- `decode_base64 ∘ encode_base64` is the identity on the compressor's
output. -/
theorem decode_encode_compress (M : Message) (mtime : Nat) :
    decode_base64 (encode_base64 (compress_message M mtime)) =
      .ok (compress_message M mtime) :=
  decode_encode_base64 _ (compress_message_lt_256 M mtime)

/-- `decompress_message ∘ compress_message` recovers the canonical
serialization. -/
theorem decompress_compress (M : Message) (mtime : Nat) :
    decompress_message (compress_message M mtime) = .ok (serialize M) := by
  rw [compress_message, decompress_message,
    gzipDecompress_compress _ mtime (utf8Encode_lt_256 _)]
  show (match utf8Decode (utf8Encode (serialize M)) with
    | some s => Except.ok s
    | none => Except.error PyError.encodingError) = Except.ok (serialize M)
  rw [utf8Decode_encode]

theorem utf8EncodeList_ascii_length (cs : List Char) (h : ∀ c ∈ cs, c.toNat < 128) :
    (utf8EncodeList cs).length = cs.length := by
  induction cs with
  | nil => rfl
  | cons c cs ih =>
    rw [utf8EncodeList]
    have hc : c.toNat < 128 := h c (by simp)
    have henc : utf8EncodeChar c.toNat = [c.toNat] := by
      unfold utf8EncodeChar; rw [if_pos hc]
    rw [henc, List.length_append, ih (fun x hx => h x (by simp [hx]))]
    simp [Nat.add_comm]

theorem round2_zero : round2 0 = 0 := by
  simp [round2, roundHalfEven]

/-- The `compression_ratio` field follows the guarded formula of
`process_message`. -/
theorem process_message_ratio (M : Message) (mtime : Nat) (now : String) :
    (process_message M mtime now).compression_ratio =
      if 0 < (process_message M mtime now).original_size then
        round2 ((1 - ((process_message M mtime now).compressed_size : ℚ) /
          ((process_message M mtime now).original_size : ℚ)) * 100)
      else 0 := by
  simp only [process_message, gt_iff_lt]
  split
  · rfl
  · exact round2_zero

theorem a2b_skip (c : Char) (cs : List Char) (qp lc pads : Nat) (acc : List Nat)
    (hne : c ≠ '=') (hv : b64Value c = none) :
    a2bBase64 (c :: cs) qp lc pads acc = a2bBase64 cs qp lc pads acc := by
  rw [a2bBase64, if_neg hne, hv]

/-- With no pad characters in the input, `a2bBase64` fails exactly when the
alphabet characters it keeps leave a partial final quad. -/
theorem a2bBase64_noPad (cs : List Char) :
    ∀ qp lc pads acc, qp < 4 → (∀ c ∈ cs, c ≠ '=') →
      (a2bBase64 cs qp lc pads acc = .error .decodeError ↔
        ¬ (qp + (cs.filter (fun c => (b64Value c).isSome)).length) % 4 = 0) := by
  induction cs with
  | nil =>
    intro qp lc pads acc hqp _
    rw [a2bBase64]
    simp only [List.filter_nil, List.length_nil, Nat.add_zero]
    by_cases h : qp = 0
    · subst h; simp
    · rw [if_neg h]
      constructor
      · intro _; omega
      · intro _; rfl
  | cons c cs ih =>
    intro qp lc pads acc hqp hpad
    have hne : c ≠ '=' := hpad c (by simp)
    have hpad' : ∀ x ∈ cs, x ≠ '=' := fun x hx => hpad x (by simp [hx])
    cases hv : b64Value c with
    | none =>
      rw [a2b_skip c cs qp lc pads acc hne hv]
      rw [List.filter_cons_of_neg (by simp [hv])]
      exact ih qp lc pads acc hqp hpad'
    | some v =>
      rw [List.filter_cons_of_pos (by simp [hv])]
      match qp, hqp with
      | 0, _ =>
        rw [a2b_data0 c cs lc pads acc v hne hv, ih 1 v 0 acc (by omega) hpad']
        simp only [List.length_cons]
        omega
      | 1, _ =>
        rw [a2b_data1 c cs lc pads acc v hne hv, ih 2 (v % 16) 0 _ (by omega) hpad']
        simp only [List.length_cons]
        omega
      | 2, _ =>
        rw [a2b_data2 c cs lc pads acc v hne hv, ih 3 (v % 4) 0 _ (by omega) hpad']
        simp only [List.length_cons]
        omega
      | 3, _ =>
        rw [a2b_data3 c cs lc pads acc v hne hv, ih 0 0 0 _ (by omega) hpad']
        simp only [List.length_cons]
        omega

theorem roundHalfEven_intCast (n : ℤ) : roundHalfEven (n : ℚ) = n := by
  rw [roundHalfEven, Int.floor_intCast]
  rw [if_pos (by norm_num)]

/-! ## Claims -/

/-- **C1** — Round-trip: for every message `M` (structured mapping or raw
string) and every header timestamp, `decode_base64 (encode_base64
(compress_message M))` returns exactly the compressed bytes, and
`decompress_message` of those bytes returns exactly the canonical
serialization of `M` (compact JSON for mappings, the string itself for
text). -/
theorem C1_pipeline_roundtrip (M : Message) (mtime : Nat) :
    decode_base64 (encode_base64 (compress_message M mtime)) =
      .ok (compress_message M mtime) ∧
    decompress_message (compress_message M mtime) = .ok (serialize M) :=
  ⟨decode_encode_compress M mtime, decompress_compress M mtime⟩

/-- **C2** (counterexample) — the envelope's keys are
`DeliveryStreamName`/`Record`/`Data`, not the `stream_name`/`record`/`data`
spelled in the claim: on the spec's own example `{"a":1}` the payload is not
the claimed object. -/
theorem C2_envelope_keys_counterexample :
    create_firehose_payload (.dict [("a", .num 1)]) none 0 "T" ≠
      Json.obj [("stream_name", .str "MVS-stream"),
        ("record", Json.obj [("data",
          .str (process_message (.dict [("a", .num 1)]) 0 "T").encoded_data)])] :=
  fun h => absurd (congrArg jsonTopKeys h) (by decide)

/-- **C2** (amended) — for every message, the envelope is exactly
`{"DeliveryStreamName": "MVS-stream", "Record": {"Data": B}}` where `B` is
the base64 text produced by the forward pipeline on `M`; the stream name is
a hardcoded constant, no other fields are present, and the accepted
`record_id` does not appear. -/
theorem C2_envelope_shape (M : Message) (r : Option String) (mtime : Nat) (now : String) :
    create_firehose_payload M r mtime now =
      Json.obj [("DeliveryStreamName", .str "MVS-stream"),
        ("Record", Json.obj [("Data", .str (encode_base64 (compress_message M mtime)))])] ∧
    (process_message M mtime now).encoded_data = encode_base64 (compress_message M mtime) :=
  ⟨rfl, rfl⟩

/-- **C3** — the `compression_ratio` field equals
`round((1 - compressed_size/original_size) * 100, 2)` when
`original_size > 0` and is exactly `0` when `original_size = 0`; in
particular the empty string yields `original_size = 0` and ratio `0` (the
division-by-zero guard). -/
theorem C3_compression_ratio (M : Message) (mtime : Nat) (now : String) :
    ((process_message M mtime now).compression_ratio =
      if 0 < (process_message M mtime now).original_size then
        round2 ((1 - ((process_message M mtime now).compressed_size : ℚ) /
          ((process_message M mtime now).original_size : ℚ)) * 100)
      else 0) ∧
    (process_message (.str "") mtime now).original_size = 0 ∧
    (process_message (.str "") mtime now).compression_ratio = 0 := by
  refine ⟨process_message_ratio M mtime now, rfl, ?_⟩
  rw [process_message_ratio]
  have h0 : (process_message (.str "") mtime now).original_size = 0 := rfl
  rw [h0]
  simp

/-- **C4** — `create_firehose_payload` ignores its `record_id` parameter:
any two record ids give identical envelopes. -/
theorem C4_record_id_dead (M : Message) (r1 r2 : Option String) (mtime : Nat) (now : String) :
    create_firehose_payload M r1 mtime now = create_firehose_payload M r2 mtime now :=
  rfl

/-- **C5** (counterexample) — an input containing characters outside the
base64 alphabet (`!`) decodes successfully: `b64decode` (non-strict, the
call the script makes) discards such characters instead of failing, so the
claim's "fails on any input with characters outside the alphabet" is
false. -/
theorem C5_invalid_chars_decode_ok :
    decode_base64 "YWJj!" = .ok [97, 98, 99] := by decide

/-- **C5** (amended) — `decode_base64` discards characters outside the
base64 alphabet rather than rejecting them; on pad-free input it fails with
`DecodeError` exactly when the kept alphabet characters leave an incomplete
final quad (invalid padding); in particular decoding
`"not-valid-base64!!"` (14 alphabet characters) raises `DecodeError`. -/
theorem C5_decode_error_condition :
    (∀ s : String, (∀ c ∈ s.data, c ≠ '=') →
      (decode_base64 s = .error .decodeError ↔
        ¬ (s.data.filter (fun c => (b64Value c).isSome)).length % 4 = 0)) ∧
    decode_base64 "not-valid-base64!!" = .error .decodeError := by
  constructor
  · intro s hs
    rw [decode_base64]
    have := a2bBase64_noPad s.data 0 0 0 [] (by omega) hs
    simpa using this
  · decide

/-- **C5** witness — the amended characterisation applied at the concrete
pad-free input `"ab!cd"` (5 alphabet characters, a partial quad). -/
theorem C5_decode_error_condition_witness :
    decode_base64 "ab!cd" = .error .decodeError ↔
      ¬ (("ab!cd" : String).data.filter (fun c => (b64Value c).isSome)).length % 4 = 0 :=
  C5_decode_error_condition.1 "ab!cd" (by decide)

/-- **C6** — `decompress_message b` returns a text exactly when `b` is a
valid gzip stream whose payload is valid UTF-8; the literal bytes of
`"hello"` fail with `DecompressionError` (not a gzip stream), and a valid
gzip stream of the non-UTF-8 byte `0xFF` fails with `EncodingError`. -/
theorem C6_decompress_errors :
    (∀ (b : List Nat) (t : String), decompress_message b = .ok t ↔
      ∃ p, gzipDecompress b = .ok p ∧ utf8Decode p = some t) ∧
    decompress_message [104, 101, 108, 108, 111] = .error .decompressionError ∧
    decompress_message (gzipCompress [255] 0) = .error .encodingError := by
  refine ⟨?_, by decide, by decide⟩
  intro b t
  rw [decompress_message]
  cases hgz : gzipDecompress b with
  | error e => simp
  | ok p =>
    cases hu : utf8Decode p with
    | none => simp [hu]
    | some s =>
      simp only [hu]
      constructor
      · intro h
        cases h
        exact ⟨p, rfl, hu⟩
      · rintro ⟨p', hp', hu'⟩
        cases hp'
        rw [hu] at hu'
        cases hu'
        rfl

/-- **C7** (counterexample) — the canonical text
`{"ssid":"test","rssi":-65}` is 26 bytes, so `process_message` does not
report `original_size = 24` as the claim (and the spec's example scenario)
state. -/
theorem C7_original_size_not_24 :
    (process_message (.dict [("ssid", .str "test"), ("rssi", .num (-65))]) 0 "T").original_size
      ≠ 24 := by decide

/-- **C7** (amended) — for the input mapping `{"ssid":"test","rssi":-65}`
the canonical serialization is the text `{"ssid":"test","rssi":-65}`,
`process_message` reports `original_size = 26` bytes, and the processing
timestamp is the UTC time with `"Z"` appended. -/
theorem C7_example_scenario (mtime : Nat) (now : String) :
    serialize (.dict [("ssid", .str "test"), ("rssi", .num (-65))]) =
      "\x7b\"ssid\":\"test\",\"rssi\":-65\x7d" ∧
    (process_message (.dict [("ssid", .str "test"), ("rssi", .num (-65))]) mtime now).original_size
      = 26 ∧
    (process_message (.dict [("ssid", .str "test"), ("rssi", .num (-65))]) mtime now).processing_timestamp
      = now ++ "Z" := by
  refine ⟨by decide, ?_, rfl⟩
  show (utf8Encode (serialize (.dict [("ssid", .str "test"), ("rssi", .num (-65))]))).length = 26
  decide

/-- **C8** — `0 ≤ compression_ratio` does not hold universally: the
non-empty message `"a"` (1 byte) compresses to more than 1 byte of gzip
output, so its ratio is negative; and for every input the ratio equals the
defined guarded formula, never a clamped value. -/
theorem C8_ratio_not_bounded (mtime : Nat) (now : String) :
    (∀ M : Message, (process_message M mtime now).compression_ratio =
      if 0 < (process_message M mtime now).original_size then
        round2 ((1 - ((process_message M mtime now).compressed_size : ℚ) /
          ((process_message M mtime now).original_size : ℚ)) * 100)
      else 0) ∧
    0 < (process_message (.str "a") mtime now).original_size ∧
    (process_message (.str "a") mtime now).compression_ratio < 0 := by
  refine ⟨fun M => process_message_ratio M mtime now, ?_, ?_⟩
  · show 0 < (utf8Encode (serialize (.str "a"))).length
    decide
  · have hos : (process_message (.str "a") mtime now).original_size = 1 := by
      show (utf8Encode (serialize (.str "a"))).length = 1
      decide
    have hcs : (process_message (.str "a") mtime now).compressed_size = 24 := by
      show (gzipCompress (utf8Encode (serialize (.str "a"))) mtime).length = 24
      have he : utf8Encode (serialize (.str "a")) = [97] := by decide
      have hd : deflateStored [97] = [1, 1, 0, 254, 255, 97] := by decide
      rw [he, gzipCompress, hd]
      simp [toLE4]
    rw [process_message_ratio, hos, hcs]
    rw [if_pos (by norm_num)]
    have h1 : ((1 : ℚ) - (24 : Nat) / (1 : Nat)) * 100 = ((-2300 : Int) : ℚ) := by
      norm_num
    rw [h1, round2]
    have h2 : ((-2300 : Int) : ℚ) * 100 = ((-230000 : Int) : ℚ) := by norm_num
    rw [h2, roundHalfEven_intCast]
    norm_num

/-- **C9** — internal consistency of the `process_message` record:
`compressed_size` is the length of `compressed_data`, `encoded_size` is the
length of `encoded_data` and equals `4 * ceil(compressed_size / 3)`,
`decode_base64` of `encoded_data` gives back `compressed_data`,
`decompress_message` of `compressed_data` gives the canonical text, and
`original_size` is that text's UTF-8 byte length. -/
theorem C9_result_consistency (M : Message) (mtime : Nat) (now : String) :
    (process_message M mtime now).compressed_size =
      (process_message M mtime now).compressed_data.length ∧
    (process_message M mtime now).encoded_size =
      (process_message M mtime now).encoded_data.length ∧
    (process_message M mtime now).encoded_size =
      4 * (((process_message M mtime now).compressed_size + 2) / 3) ∧
    decode_base64 (process_message M mtime now).encoded_data =
      .ok (process_message M mtime now).compressed_data ∧
    decompress_message (process_message M mtime now).compressed_data = .ok (serialize M) ∧
    (utf8Encode (serialize M)).length = (process_message M mtime now).original_size := by
  have h256 := compress_message_lt_256 M mtime
  refine ⟨rfl, ?_, ?_, ?_, ?_, rfl⟩
  · show (utf8EncodeList (b64EncodeList (compress_message M mtime))).length =
      (b64EncodeList (compress_message M mtime)).length
    exact utf8EncodeList_ascii_length _ (b64EncodeList_ascii _ h256)
  · show (utf8EncodeList (b64EncodeList (compress_message M mtime))).length =
      4 * (((compress_message M mtime).length + 2) / 3)
    rw [utf8EncodeList_ascii_length _ (b64EncodeList_ascii _ h256), b64EncodeList_length]
  · exact decode_encode_compress M mtime
  · exact decompress_compress M mtime

/-- **C10** (counterexample) — invoked with `--decompress`, `--base64 ""`
and `--compress --json`, the compress branch runs: an empty `--base64`
string is falsy in Python, so `args.decompress and args.base64` fails and
the reverse pipeline does not take precedence. -/
theorem C10_empty_base64_counterexample :
    mainDispatch ⟨none, some "\x7b\"a\":1\x7d", none, true, true, some "", false, false⟩ =
      .compressFromJson "\x7b\"a\":1\x7d" false none ∧
    mainDispatch ⟨none, some "\x7b\"a\":1\x7d", none, true, true, some "", false, false⟩ ≠
      .runDecompress "" := by
  constructor
  · decide
  · decide

/-- **C10** (amended) — whenever `--decompress` is set and `--base64`
carries a non-empty value, the reverse pipeline runs regardless of every
other flag (in particular with `--compress` also set): the decompress
branch takes precedence and the compress branch with its
`--file`/`--json`/`--firehose`/`--output` handling is never reached. -/
theorem C10_decompress_precedence (args : Args) (b : String)
    (hd : args.decompress = true) (hb : args.base64 = some b) (hne : b ≠ "") :
    mainDispatch args = .runDecompress b := by
  rw [mainDispatch]
  have ht : truthy args.base64 = true := by
    rw [hb, truthy]
    simp [hne]
  rw [hd, ht]
  simp [hb]

/-- **C10** witness — the precedence theorem applied to a concrete
invocation carrying every other flag, `--compress` included. -/
theorem C10_decompress_precedence_witness :
    mainDispatch ⟨some "f.json", some "{}", some "out", true, true, some "QUJD", true, true⟩ =
      .runDecompress "QUJD" :=
  C10_decompress_precedence _ "QUJD" rfl rfl (by decide)

end MessageProcessor
